import Mathlib

set_option maxRecDepth 100000

/-!
Shallow embedding of the timing / gap-analysis core of the Voice-converter
repository (backend/app/services/audio_processor.py,
backend/app/services/sentence_processor.py, backend/app/main.py).

Durations in seconds are rationals (Python floats on the code's arithmetic);
pydub `AudioSegment` lengths are natural numbers of milliseconds (pydub's
`len` is an integer millisecond count).  The pydub `speedup` primitive is
abstracted as an oracle `ℕ → ℚ → Option ℕ` (input length and playback speed
to output length, `none` when the primitive raises); the code catches that
failure and falls back to padding or trimming, so every theorem below is
proved for an arbitrary oracle.
-/

namespace VoiceConverter

/-- Python `int()` truncation toward zero, applied to a rational. -/
def pyInt (q : ℚ) : ℤ := if 0 ≤ q then ⌊q⌋ else ⌈q⌉

/-- Millisecond slicing `audio[:k]` of a pydub segment of length `len` ms:
a nonnegative `k` keeps the first `min len k` milliseconds, a negative `k`
drops the last `-k` milliseconds (Python slice semantics). -/
def sliceTo (len : ℕ) (k : ℤ) : ℕ :=
  if 0 ≤ k then min len k.toNat else len - (-k).toNat

/-- A transcription sentence record (the dict with keys
`text`, `start_time`, `end_time`). -/
structure Sentence where
  text : String
  start_time : ℚ
  end_time : ℚ
deriving DecidableEq, Repr

/-- A detected gap record (the dict with keys `start`, `end`, `duration`);
the `end` key is spelled `stop` because `end` is a Lean keyword. -/
structure Gap where
  start : ℚ
  stop : ℚ
  duration : ℚ
deriving DecidableEq, Repr

/-- One insertion step of a stable insertion sort by `start_time`: the new
element goes after every element whose key is `≤` its own, which matches the
stability of Python's `sorted`. -/
def insertByStart (a : Sentence) : List Sentence → List Sentence
  | [] => [a]
  | b :: l =>
    if a.start_time < b.start_time then a :: b :: l else b :: insertByStart a l

/-- Stable sort by `start_time`, modelling
`sorted(sentences, key=lambda x: x['start_time'])`. -/
def sortByStart (l : List Sentence) : List Sentence :=
  l.foldl (fun acc a => insertByStart a acc) []

/-- The gap records produced by the loop of
`SentenceProcessor.analyze_sentence_gaps`: for each consecutive pair of the
sorted list, a gap is recorded when the pause exceeds 0.1 s. -/
def consecGaps : List Sentence → List Gap
  | a :: b :: rest =>
    (if b.start_time - a.end_time > 1/10 then
      [⟨a.end_time, b.start_time, b.start_time - a.end_time⟩]
     else []) ++ consecGaps (b :: rest)
  | _ => []

/-- The result dict of `SentenceProcessor.analyze_sentence_gaps`. -/
structure GapAnalysis where
  total_sentences : ℕ
  total_duration : ℚ
  total_speech_time : ℚ
  total_gap_time : ℚ
  speech_ratio : ℚ
  gaps : List Gap
  filtered_sentences : ℕ
deriving DecidableEq, Repr

/-- `SentenceProcessor.analyze_sentence_gaps`: sorts by start time, sums the
raw speech durations over every sentence, collects inter-sentence gaps above
0.1 s, prepends a leading gap when the first sentence starts after 0.1 s, and
reports the duration-filtered sentence count. -/
def analyzeSentenceGaps (sentences : List Sentence) : GapAnalysis :=
  let sorted := sortByStart sentences
  let baseGaps := consecGaps sorted
  let gaps :=
    match sorted with
    | [] => baseGaps
    | s0 :: _ =>
      if s0.start_time > 1/10 then
        ⟨0, s0.start_time, s0.start_time⟩ :: baseGaps
      else baseGaps
  let total_speech_time := (sorted.map (fun s => s.end_time - s.start_time)).sum
  let total_gap_time := (gaps.map Gap.duration).sum
  let total_duration :=
    match sorted.getLast? with
    | some s => s.end_time
    | none => 0
  { total_sentences := sentences.length
    total_duration := total_duration
    total_speech_time := total_speech_time
    total_gap_time := total_gap_time
    speech_ratio :=
      if total_duration > 0 then total_speech_time / total_duration else 0
    gaps := gaps
    filtered_sentences :=
      (sentences.filter
        (fun s => decide (1/10 ≤ s.end_time - s.start_time))).length }

/-- `SentenceProcessor._filter_empty_spaces`: keep a sentence iff its
duration is at least 0.1 s and its stripped text has at least 2 characters. -/
def filterEmptySpaces (sentences : List Sentence) : List Sentence :=
  sentences.filter (fun s =>
    decide (1/10 ≤ s.end_time - s.start_time) &&
    decide (2 ≤ s.text.trim.length))

/-- Modelled from the spec: the validity rule as the claim states it
(duration at least 0.1 s, trimmed text length at least 2, and the text
contains at least one alphanumeric character).  Stated only to compare with
`filterEmptySpaces`, which the source actually uses. -/
def specValidSentence (s : Sentence) : Bool :=
  decide (1/10 ≤ s.end_time - s.start_time) &&
  decide (2 ≤ s.text.trim.length) &&
  s.text.any Char.isAlphanum

/-- `AudioProcessor._stretch_audio`: try the speedup primitive with playback
speed `1/ratio`; if it raises, fall back to padding with trailing silence up
to `int(len * ratio)` milliseconds. -/
def stretchAudio (sp : ℕ → ℚ → Option ℕ) (len : ℕ) (ratio : ℚ) : ℕ :=
  match sp len (1/ratio) with
  | some n => n
  | none => len + (pyInt ((len : ℚ) * ratio) - (len : ℤ)).toNat

/-- `AudioProcessor._compress_audio`: try the speedup primitive with playback
speed `1/ratio`; if it raises, fall back to trimming to
`int(len * ratio)` milliseconds. -/
def compressAudio (sp : ℕ → ℚ → Option ℕ) (len : ℕ) (ratio : ℚ) : ℕ :=
  match sp len (1/ratio) with
  | some n => n
  | none => sliceTo len (pyInt ((len : ℚ) * ratio))

/-- `AudioProcessor._ensure_exact_duration`: pad with silence up to
`int(target * 1000)` ms when short, trim down to it when long. -/
def ensureExactDuration (len : ℕ) (target_duration : ℚ) : ℕ :=
  let target_ms := pyInt (target_duration * 1000)
  if (len : ℤ) < target_ms then len + (target_ms - (len : ℤ)).toNat
  else if target_ms < (len : ℤ) then sliceTo len target_ms
  else len

/-- `AudioProcessor.match_timing` on a clip of `clonedLenMs` milliseconds:
computes `target_duration / cloned_duration` (a `ZeroDivisionError`, caught
and re-raised, when the clip is empty), skips adjustment within the 5% band,
stretches when the ratio exceeds 1, compresses otherwise, then applies the
exact-duration fixup.  The returned value is the output clip's length in
milliseconds. -/
def matchTiming (sp : ℕ → ℚ → Option ℕ) (clonedLenMs : ℕ)
    (target_start_time target_end_time : ℚ) : Except String ℕ :=
  let target_duration := target_end_time - target_start_time
  let cloned_duration : ℚ := (clonedLenMs : ℚ) / 1000
  if cloned_duration = 0 then
    Except.error "Audio timing matching failed: float division by zero"
  else
    let duration_ratio := target_duration / cloned_duration
    let matched :=
      if |duration_ratio - 1| < 1/20 then clonedLenMs
      else if 1 < duration_ratio then stretchAudio sp clonedLenMs duration_ratio
      else compressAudio sp clonedLenMs duration_ratio
    Except.ok (ensureExactDuration matched target_duration)

/-- `AudioProcessor.concatenate_audio` over the per-path load results
(`some len` when the file loads as `len` ms, `none` when loading raises):
raises when the path list is empty, substitutes a fixed 1000 ms of silence
for every segment that fails to load, and raises when the combined length is
zero. -/
def concatenateAudio (loads : List (Option ℕ)) : Except String ℕ :=
  if loads.isEmpty then
    Except.error "No audio files to concatenate"
  else
    let combined := (loads.map (fun o => o.getD 1000)).sum
    if combined = 0 then Except.error "No valid audio segments found"
    else Except.ok combined

/-- The per-sentence loop of the default (original) mode of
`process_audio_file`: each synthesized clip is timing-matched to its
sentence's slot; the first exception aborts the whole loop. -/
def matchAll (sp : ℕ → ℚ → Option ℕ) :
    List (ℕ × Sentence) → Except String (List ℕ)
  | [] => Except.ok []
  | p :: rest =>
    match matchTiming sp p.1 p.2.start_time p.2.end_time with
    | Except.error e => Except.error e
    | Except.ok d =>
      match matchAll sp rest with
      | Except.error e => Except.error e
      | Except.ok ds => Except.ok (d :: ds)

/-- The default (original) mode of `process_audio_file`: timing-match every
synthesized clip to its sentence slot, then concatenate the matched chunks
(each of which loads successfully).  `synthLens` are the natural lengths of
the synthesized clips, aligned with `sentences` by index. -/
def originalModeOutput (sp : ℕ → ℚ → Option ℕ) (synthLens : List ℕ)
    (sentences : List Sentence) : Except String ℕ :=
  match matchAll sp (synthLens.zip sentences) with
  | Except.error e => Except.error e
  | Except.ok chunks => concatenateAudio (chunks.map some)

/-- The continuous mode of `process_audio_file`: synthesize every transcribed
sentence (no filtering, no timing match) and concatenate the natural-duration
clips directly. -/
def continuousModeOutput (synthLens : List ℕ) (sentences : List Sentence) :
    Except String ℕ :=
  concatenateAudio ((synthLens.zip sentences).map (fun p => some p.1))

/-- The job-status record (`ProcessingStatus`). -/
structure JobStatusRec where
  status : String
  progress : ℤ
  message : String
  download_url : Option String
  error : Option String
deriving DecidableEq, Repr

/-- The tail of `process_audio_file`: on pipeline success the job is marked
completed at progress 100 with a `file://` download url and
`cleanup_temp_files` is invoked (second component `true`); on any exception
the handler only marks the job failed with the error message — it invokes no
cleanup (second component `false`) and leaves the progress where it was. -/
def processAudioOutcome (progress_so_far : ℤ) (result : Except String String) :
    JobStatusRec × Bool :=
  match result with
  | Except.ok output_path =>
    (⟨"completed", 100, "Processing completed successfully",
      some ("file://" ++ output_path), none⟩, true)
  | Except.error e =>
    (⟨"failed", progress_so_far, "Processing failed: " ++ e, none, some e⟩,
      false)

/-- The five selectable processing modes of `process_audio_file`. -/
inductive Mode
  | original
  | continuous
  | same_length
  | timestamp_based
  | continuous_with_spaces
deriving DecidableEq, Repr

/-- The progress values of a per-sentence loop that assigns
`int(base + (i / n) * 50)` for `i = 0 .. n-1`. -/
def loopProgress (base : ℚ) (n : ℕ) : List ℤ :=
  (List.range n).map (fun i : ℕ => pyInt (base + ((i : ℚ) / (n : ℚ)) * 50))

/-- The sequence of `progress` values assigned to the job status during one
successful conversion of `n` sentences, per mode, in program order (starting
from the initial 0 set at upload).  The same_length mode delegates to a
converter that performs no status updates of its own, so its trace is just
the shared prologue and epilogue values. -/
def progressTrace (m : Mode) (n : ℕ) : List ℤ :=
  match m with
  | Mode.original => [0, 10, 30] ++ loopProgress 30 n ++ [80, 90, 100]
  | Mode.continuous => [0, 10, 30] ++ loopProgress 30 n ++ [80, 90, 100]
  | Mode.same_length => [0, 10, 30, 90, 100]
  | Mode.timestamp_based => [0, 10, 30, 35, 40, 90, 100]
  | Mode.continuous_with_spaces =>
    [0, 10, 15] ++ loopProgress 20 n ++ [75, 95, 90, 100]

/-- The speedup oracle that always raises (both fallback paths taken). -/
def spNone : ℕ → ℚ → Option ℕ := fun _ _ => none

/-- Boolean check that a list of progress values never decreases. -/
def isMonotone : List ℤ → Bool
  | a :: b :: l => decide (a ≤ b) && isMonotone (b :: l)
  | _ => true

deriving instance DecidableEq for Except

/-! ## Helper lemmas -/

lemma pyInt_of_nonneg {q : ℚ} (h : 0 ≤ q) : pyInt q = ⌊q⌋ := if_pos h

lemma pyInt_nonneg {q : ℚ} (h : 0 ≤ q) : 0 ≤ pyInt q := by
  rw [pyInt_of_nonneg h]
  exact Int.floor_nonneg.mpr h

lemma ensureExactDuration_eq (len : ℕ) (t : ℚ) (ht : 0 ≤ t) :
    ensureExactDuration len t = (pyInt (t * 1000)).toNat := by
  have h0 : (0 : ℤ) ≤ pyInt (t * 1000) := pyInt_nonneg (by positivity)
  simp only [ensureExactDuration, sliceTo]
  split
  · omega
  · split
    · omega
    · omega

lemma matchTiming_ok (sp : ℕ → ℚ → Option ℕ) (len : ℕ) (ts te : ℚ)
    (hlen : 0 < len) (ht : 0 ≤ te - ts) :
    matchTiming sp len ts te = Except.ok ((pyInt ((te - ts) * 1000)).toNat) := by
  have hcd : ¬ ((len : ℚ) / 1000 = 0) := by positivity
  unfold matchTiming
  rw [if_neg hcd]
  exact congrArg Except.ok (ensureExactDuration_eq _ _ ht)

lemma toNat_pyInt_close (t : ℚ) (ht : 0 ≤ t) :
    |(((pyInt (t * 1000)).toNat : ℚ)) / 1000 - t| < 1/1000 := by
  have hq : (0 : ℚ) ≤ t * 1000 := by positivity
  have h1 : pyInt (t * 1000) = ⌊t * 1000⌋ := pyInt_of_nonneg hq
  have h0 : (0 : ℤ) ≤ ⌊t * 1000⌋ := Int.floor_nonneg.mpr hq
  have h2 : ((⌊t * 1000⌋.toNat : ℤ)) = ⌊t * 1000⌋ := Int.toNat_of_nonneg h0
  have hcast : ((⌊t * 1000⌋.toNat : ℚ)) = ((⌊t * 1000⌋ : ℤ) : ℚ) := by
    exact_mod_cast h2
  have hfl : ((⌊t * 1000⌋ : ℤ) : ℚ) ≤ t * 1000 := Int.floor_le _
  have hlt : t * 1000 < ((⌊t * 1000⌋ : ℤ) : ℚ) + 1 := Int.lt_floor_add_one _
  rw [h1, hcast, abs_lt]
  constructor <;> linarith

/-! ## C1 — duration reconciliation -/

/-- C1 (counterexample): a zero-duration input clip is NOT handled by
skipping the stretch step and padding with silence; `match_timing` divides
`target_duration` by the zero clip duration, the `ZeroDivisionError` is
caught by the outer handler and re-raised, so the operation fails instead of
returning a `target_duration` clip of silence. -/
theorem C1_zero_clip_raises :
    matchTiming spNone 0 0 1 =
      Except.error "Audio timing matching failed: float division by zero" := by
  with_unfolding_all decide

/-- C1 (amended): for every clip of positive duration, every speedup-oracle
behaviour, and every `target_duration = te - ts ≥ 0`, `match_timing` returns
a clip whose length is exactly `int(target_duration * 1000)` milliseconds,
hence within one millisecond of the target (not within one 44.1 kHz sample
frame: lengths are quantized to whole milliseconds). -/
theorem C1_duration_fixup (sp : ℕ → ℚ → Option ℕ) (clonedLenMs : ℕ)
    (ts te : ℚ) (hlen : 0 < clonedLenMs) (ht : 0 ≤ te - ts) :
    ∃ d, matchTiming sp clonedLenMs ts te = Except.ok d ∧
      |((d : ℚ)) / 1000 - (te - ts)| < 1/1000 :=
  ⟨(pyInt ((te - ts) * 1000)).toNat,
    matchTiming_ok sp clonedLenMs ts te hlen ht,
    toNat_pyInt_close (te - ts) ht⟩

/-- Witness for C1: a 500 ms clip matched to the slot [0, 2] yields a clip
within one millisecond of 2 s. -/
theorem C1_duration_fixup_witness :
    ∃ d, matchTiming spNone 500 0 2 = Except.ok d ∧
      |((d : ℚ)) / 1000 - (2 - 0)| < 1/1000 :=
  C1_duration_fixup spNone 500 0 2 (by norm_num) (by norm_num)

/-! ## C3 — error behaviour of the reconciliation -/

/-- C3 (counterexample): a negative target duration does NOT raise an
`InvalidDurationError` (no such error exists in the code): with target
`-1` s a 1000 ms clip flows through the compress fallback and the trim
fixup and the call returns normally (an empty clip). -/
theorem C3_negative_target_returns :
    matchTiming spNone 1000 0 (-1) = Except.ok 0 := by
  with_unfolding_all decide

/-- C3 (amended): `match_timing` never raises for a clip of positive
duration, whatever the target (positive, zero or negative) and whatever the
speedup oracle does; its only failure is the zero-duration clip of
`C1_zero_clip_raises`. -/
theorem C3_never_raises_on_positive (sp : ℕ → ℚ → Option ℕ) (len : ℕ)
    (ts te : ℚ) (hlen : 0 < len) :
    ∃ d, matchTiming sp len ts te = Except.ok d := by
  have hcd : ¬ ((len : ℚ) / 1000 = 0) := by positivity
  unfold matchTiming
  rw [if_neg hcd]
  exact ⟨_, rfl⟩

/-- Witness for C3: a 300 ms clip with negative target returns normally. -/
theorem C3_never_raises_on_positive_witness :
    ∃ d, matchTiming spNone 300 0 (-5) = Except.ok d :=
  C3_never_raises_on_positive spNone 300 0 (-5) (by norm_num)

/-! ## C4 — concrete gap analysis -/

/-- C4 (confirmed): on the three sentences (0.33, 0.47), (1.15, 2.23),
(2.57, 7.52) the gap analysis reports exactly the leading gap
(0, 0.33, 0.33) and the two inter-sentence gaps (0.47, 1.15, 0.68) and
(2.23, 2.57, 0.34), and the total speech time 0.14 + 1.08 + 4.95 = 6.17. -/
theorem C4_gap_analysis_concrete :
    (analyzeSentenceGaps
      [⟨"Hello,", 33/100, 47/100⟩, ⟨"so today", 115/100, 223/100⟩,
       ⟨"I will demonstrate", 257/100, 752/100⟩]).gaps =
      [⟨0, 33/100, 33/100⟩, ⟨47/100, 115/100, 68/100⟩,
       ⟨223/100, 257/100, 34/100⟩]
    ∧ (analyzeSentenceGaps
      [⟨"Hello,", 33/100, 47/100⟩, ⟨"so today", 115/100, 223/100⟩,
       ⟨"I will demonstrate", 257/100, 752/100⟩]).total_speech_time
        = 617/100 := by
  with_unfolding_all decide

/-! ## C5 — the validity rule and the valid-sentence count -/

/-- C5 (counterexample): the claimed validity rule is not the code's rule.
The sentence with text "!!" (duration 1 s, no alphanumeric character)
survives `_filter_empty_spaces` although the claimed rule rejects it; and
for the sentence with text "x" (trimmed length 1, duration 1 s) the filter
keeps nothing while the gap analysis `filtered_sentences` count — which
tests only the duration — reports 1, so the two counts differ. -/
theorem C5_validity_counterexample :
    filterEmptySpaces [⟨"!!", 0, 1⟩] = [⟨"!!", 0, 1⟩]
    ∧ specValidSentence ⟨"!!", 0, 1⟩ = false
    ∧ (filterEmptySpaces [⟨"x", 0, 1⟩]).length = 0
    ∧ (analyzeSentenceGaps [⟨"x", 0, 1⟩]).filtered_sentences = 1 := by
  with_unfolding_all decide

lemma length_filter_mono {α : Type} (l : List α) (p q : α → Bool)
    (h : ∀ a, p a = true → q a = true) :
    (l.filter p).length ≤ (l.filter q).length := by
  induction l with
  | nil => simp
  | cons a l ih =>
    by_cases hp : p a = true
    · rw [List.filter_cons_of_pos hp, List.filter_cons_of_pos (h a hp)]
      simpa using ih
    · rw [List.filter_cons_of_neg hp]
      by_cases hq : q a = true
      · rw [List.filter_cons_of_pos hq]
        exact Nat.le_succ_of_le ih
      · rw [List.filter_cons_of_neg hq]
        exact ih

/-- C5 (amended): a sentence survives `_filter_empty_spaces` iff its
duration is at least 0.1 s and its trimmed text has at least 2 characters —
there is no alphanumeric-character condition; and since the gap analysis's
`filtered_sentences` count tests only the duration, the survivor count is
only bounded above by it (equality can fail, see the counterexample). -/
theorem C5_filter_rule (sentences : List Sentence) (s : Sentence) :
    (s ∈ filterEmptySpaces sentences ↔
      s ∈ sentences ∧ 1/10 ≤ s.end_time - s.start_time
        ∧ 2 ≤ s.text.trim.length)
    ∧ (filterEmptySpaces sentences).length
        ≤ (analyzeSentenceGaps sentences).filtered_sentences := by
  constructor
  · unfold filterEmptySpaces
    rw [List.mem_filter, Bool.and_eq_true, decide_eq_true_eq,
      decide_eq_true_eq]
  · have hfs : (analyzeSentenceGaps sentences).filtered_sentences
        = (sentences.filter
            (fun s => decide (1/10 ≤ s.end_time - s.start_time))).length := rfl
    rw [hfs]
    unfold filterEmptySpaces
    exact length_filter_mono sentences _ _
      (fun a ha => (Bool.and_eq_true _ _ |>.mp ha).1)

/-- Witness for C5: the filter rule at a concrete valid sentence. -/
theorem C5_filter_rule_witness :
    ((⟨"ok then", 0, 1⟩ : Sentence) ∈ filterEmptySpaces [⟨"ok then", 0, 1⟩] ↔
      (⟨"ok then", 0, 1⟩ : Sentence) ∈ ([⟨"ok then", 0, 1⟩] : List Sentence)
        ∧ 1/10 ≤ (1 : ℚ) - 0 ∧ 2 ≤ ("ok then" : String).trim.length)
    ∧ (filterEmptySpaces [⟨"ok then", 0, 1⟩]).length
        ≤ (analyzeSentenceGaps [⟨"ok then", 0, 1⟩]).filtered_sentences :=
  C5_filter_rule [⟨"ok then", 0, 1⟩] ⟨"ok then", 0, 1⟩

/-! ## C10 — concatenation error behaviour -/

/-- C10 (counterexample): when every segment fails to load the operation
does NOT raise: each failure contributes the fixed 1000 ms of substitute
silence, so a single unreadable path yields a 1000 ms output. -/
theorem C10_all_failed_returns :
    concatenateAudio [none] = Except.ok 1000 := by
  with_unfolding_all decide

lemma concat_sum_zero_iff (loads : List (Option ℕ)) :
    ((loads.map (fun o => o.getD 1000)).sum = 0 ↔ ∀ o ∈ loads, o = some 0) := by
  rw [List.sum_eq_zero_iff]
  constructor
  · intro h o ho
    have hz := h (o.getD 1000) (List.mem_map_of_mem _ ho)
    cases o with
    | none => simp at hz
    | some a => simpa using hz
  · intro h x hx
    rcases List.mem_map.mp hx with ⟨o, ho, rfl⟩
    rw [h o ho]
    rfl

/-- C10 (amended): a segment that fails to load is silently replaced by a
fixed 1000 ms of silence and concatenation continues; the operation raises
exactly when the path list is empty or when every segment loads successfully
with zero length (an all-failed list does not raise — the substitutes make
the combined length positive); otherwise it returns the combined length,
counting 1000 ms per failed segment. -/
theorem C10_error_characterization (loads : List (Option ℕ)) :
    (concatenateAudio loads = Except.error "No audio files to concatenate"
      ↔ loads = [])
    ∧ ((∃ e, concatenateAudio loads = Except.error e)
      ↔ (loads = [] ∨ ∀ o ∈ loads, o = some 0))
    ∧ (loads ≠ [] → ¬ (∀ o ∈ loads, o = some 0) →
        concatenateAudio loads
          = Except.ok ((loads.map (fun o => o.getD 1000)).sum)) := by
  unfold concatenateAudio
  cases loads with
  | nil => simp
  | cons a l =>
    have hne : (a :: l).isEmpty = false := rfl
    rw [hne]
    by_cases hz : ((a :: l).map (fun o => o.getD 1000)).sum = 0
    · rw [if_neg (by simp), if_pos hz]
      refine ⟨by simp, ?_, ?_⟩
      · simp only [Except.error.injEq]
        constructor
        · intro _
          exact Or.inr ((concat_sum_zero_iff (a :: l)).mp hz)
        · intro _
          exact ⟨_, rfl⟩
      · intro _ hforall
        exact absurd ((concat_sum_zero_iff (a :: l)).mp hz) hforall
    · rw [if_neg (by simp), if_neg hz]
      refine ⟨by simp, ?_, fun _ _ => rfl⟩
      constructor
      · rintro ⟨e, he⟩
        exact absurd he (by simp)
      · rintro (h | h)
        · exact absurd h (by simp)
        · exact absurd ((concat_sum_zero_iff (a :: l)).mpr h) hz

/-- Witness for C10: two paths, one failing to load and one loading as a
5 ms clip, concatenate to 1005 ms. -/
theorem C10_error_characterization_witness :
    concatenateAudio [none, some 5]
      = Except.ok (([none, some 5].map (fun o => o.getD 1000)).sum) :=
  (C10_error_characterization [none, some 5]).2.2 (by simp) (by decide)

/-! ## C9 — failure handling of the pipeline -/

/-- C9 (counterexample): when the pipeline raises, the handler of
`process_audio_file` marks the job failed with the error message but does
NOT invoke `cleanup_temp_files` (the second component `false`): intermediate
chunks are only cleaned up on the success path, contrary to the claim that
every intermediate artifact is deleted on any exception. -/
theorem C9_no_cleanup_on_failure :
    processAudioOutcome 40 (Except.error "Synthesis failed")
      = (⟨"failed", 40, "Processing failed: Synthesis failed", none,
          some "Synthesis failed"⟩, false) := rfl

/-- C9 (amended): on any exception the pipeline reports a terminal failed
status carrying the error message (status "failed", `error` field set, the
progress left where it was), but it invokes the cleanup of intermediate
artifacts only on success: the cleanup flag is true exactly on the ok
outcome. -/
theorem C9_failure_reporting (p : ℤ) (r : Except String String) :
    ((processAudioOutcome p r).2 = true ↔ ∃ o, r = Except.ok o)
    ∧ (∀ e, r = Except.error e →
        (processAudioOutcome p r).1.status = "failed"
        ∧ (processAudioOutcome p r).1.error = some e
        ∧ (processAudioOutcome p r).1.message = "Processing failed: " ++ e
        ∧ (processAudioOutcome p r).1.progress = p) := by
  cases r with
  | ok o => simp [processAudioOutcome]
  | error e => simp [processAudioOutcome]

/-- Witness for C9: a concrete failed conversion is reported as failed with
its message and without cleanup. -/
theorem C9_failure_reporting_witness :
    (processAudioOutcome 55 (Except.error "boom")).1.status = "failed"
    ∧ (processAudioOutcome 55 (Except.error "boom")).1.error = some "boom"
    ∧ (processAudioOutcome 55 (Except.error "boom")).2 = false := by
  have h := C9_failure_reporting 55 (Except.error "boom")
  have h2 := h.2 "boom" rfl
  refine ⟨h2.1, h2.2.1, ?_⟩
  have h3 := h.1
  cases hb : (processAudioOutcome 55 (Except.error "boom")).2 with
  | false => rfl
  | true =>
    rcases h3.mp hb with ⟨o, ho⟩
    exact absurd ho (by simp)

/-! ## C6 — continuous mode does not filter -/

/-- C6 (counterexample): the continuous mode synthesizes every transcribed
sentence: a sentence that the validity rule rejects (duration 0.01 s, text
"a") still contributes its 700 ms clip to the gapless output. -/
theorem C6_invalid_sentence_contributes :
    continuousModeOutput [700] [⟨"a", 0, 1/100⟩] = Except.ok 700
    ∧ filterEmptySpaces [⟨"a", 0, 1/100⟩] = []
    ∧ specValidSentence ⟨"a", 0, 1/100⟩ = false := by
  with_unfolding_all decide

lemma concatenateAudio_ok (lens : List ℕ) (hne : lens ≠ [])
    (hsum : lens.sum ≠ 0) :
    concatenateAudio (lens.map some) = Except.ok lens.sum := by
  unfold concatenateAudio
  have h1 : (lens.map some).isEmpty = false := by
    cases lens with
    | nil => exact absurd rfl hne
    | cons a l => rfl
  have h2 : ((lens.map some).map (fun o => o.getD 1000)).sum = lens.sum := by
    rw [List.map_map]
    have h3 : ((fun o : Option ℕ => o.getD 1000) ∘ some) = fun n : ℕ => n :=
      rfl
    rw [h3, List.map_id']
  rw [if_neg (by simp [h1]), h2, if_neg hsum]

/-- C6 (amended): Policy B (continuous mode) applies no validity filtering:
with one synthesized clip per transcribed sentence (all of positive length),
the output is the concatenation of every clip, so its length is the sum of
all the natural clip lengths, invalid sentences included. -/
theorem C6_no_filtering (synthLens : List ℕ) (sentences : List Sentence)
    (hlen : synthLens.length = sentences.length) (hne : synthLens ≠ [])
    (hpos : ∀ n ∈ synthLens, 0 < n) :
    continuousModeOutput synthLens sentences = Except.ok synthLens.sum := by
  unfold continuousModeOutput
  have hmap : ((synthLens.zip sentences).map (fun p => some p.1))
      = synthLens.map some := by
    have h1 : (fun p : ℕ × Sentence => some p.1)
        = (some ∘ Prod.fst : ℕ × Sentence → Option ℕ) := rfl
    rw [h1, ← List.map_map, List.map_fst_zip _ _ (le_of_eq hlen)]
  rw [hmap]
  refine concatenateAudio_ok synthLens hne ?_
  intro h0
  rw [List.sum_eq_zero_iff] at h0
  cases synthLens with
  | nil => exact hne rfl
  | cons a l =>
    exact absurd (h0 a (List.mem_cons_self a l))
      (Nat.pos_iff_ne_zero.mp (hpos a (List.mem_cons_self a l)))

/-- Witness for C6: one 500 ms clip for one sentence concatenates to
500 ms. -/
theorem C6_no_filtering_witness :
    continuousModeOutput [500] [⟨"hi there", 0, 1⟩]
      = Except.ok ([500] : List ℕ).sum :=
  C6_no_filtering [500] [⟨"hi there", 0, 1⟩] rfl (by simp) (by decide)

/-! ## C2 — the default (original) mode inserts no silence -/

/-- C2 (counterexample): one sentence at [0.5, 1] inside an original audio
of duration D = 2 s, synthesized as an 800 ms clip: the default original
mode outputs a 500 ms clip — the matched slot only — with no silence entry
for the 0.5 s leading gap (which exceeds 0.01 s) and no trailing silence,
so the output duration differs from D = 2 s by far more than 1 ms. -/
theorem C2_no_silence_counterexample :
    originalModeOutput spNone [800] [⟨"Hello", 1/2, 1⟩] = Except.ok 500
    ∧ (1/1000 : ℚ) < |((500 : ℚ)) / 1000 - 2| := by
  constructor
  · with_unfolding_all decide
  · have h : ((500 : ℚ)) / 1000 - 2 = -(3/2) := by norm_num
    rw [h, abs_neg, abs_of_pos (by norm_num)]
    norm_num

lemma matchAll_ok (sp : ℕ → ℚ → Option ℕ) (l : List (ℕ × Sentence))
    (h : ∀ p ∈ l, 0 < p.1 ∧ 0 ≤ p.2.end_time - p.2.start_time) :
    matchAll sp l = Except.ok (l.map
      (fun p => (pyInt ((p.2.end_time - p.2.start_time) * 1000)).toNat)) := by
  induction l with
  | nil => rfl
  | cons p rest ih =>
    have hp := h p (List.mem_cons_self p rest)
    simp only [matchAll]
    rw [matchTiming_ok sp p.1 p.2.start_time p.2.end_time hp.1 hp.2,
      ih (fun q hq => h q (List.mem_cons_of_mem p hq))]
    rfl

/-- C2 (amended): the default original mode of `process_audio_file` inserts
no silence entries and never reads the original audio duration: with one
positive-length synthesized clip per sentence, all slots nonnegative and a
positive total, the output length is exactly the sum of the per-sentence
slot lengths `int((end - start) * 1000)` milliseconds — equal to the
original duration only when the sentences tile it completely. -/
theorem C2_originalMode_output (sp : ℕ → ℚ → Option ℕ) (synthLens : List ℕ)
    (sentences : List Sentence)
    (hlen : synthLens.length = sentences.length)
    (hpos : ∀ n ∈ synthLens, 0 < n)
    (hslot : ∀ s ∈ sentences, 0 ≤ s.end_time - s.start_time)
    (hne : sentences ≠ [])
    (hsum : (sentences.map
        (fun s => (pyInt ((s.end_time - s.start_time) * 1000)).toNat)).sum
        ≠ 0) :
    originalModeOutput sp synthLens sentences
      = Except.ok ((sentences.map
          (fun s => (pyInt ((s.end_time - s.start_time) * 1000)).toNat)).sum)
      := by
  unfold originalModeOutput
  rw [matchAll_ok sp (synthLens.zip sentences)
    (fun p hp => ⟨hpos p.1 (List.of_mem_zip hp).1,
      hslot p.2 (List.of_mem_zip hp).2⟩)]
  have hmap : ((synthLens.zip sentences).map
      (fun p => (pyInt ((p.2.end_time - p.2.start_time) * 1000)).toNat))
      = sentences.map
          (fun s => (pyInt ((s.end_time - s.start_time) * 1000)).toNat) := by
    have h1 : (fun p : ℕ × Sentence =>
        (pyInt ((p.2.end_time - p.2.start_time) * 1000)).toNat)
        = ((fun s : Sentence =>
            (pyInt ((s.end_time - s.start_time) * 1000)).toNat) ∘ Prod.snd) :=
      rfl
    rw [h1, ← List.map_map, List.map_snd_zip _ _ (le_of_eq hlen.symm)]
  rw [hmap]
  exact concatenateAudio_ok _ (by simpa using hne) hsum

/-- Witness for C2: one sentence spanning [0, 1] with an 800 ms clip yields
the 1000 ms slot. -/
theorem C2_originalMode_output_witness :
    originalModeOutput spNone [800] [⟨"Hi", 0, 1⟩]
      = Except.ok ((([⟨"Hi", 0, 1⟩] : List Sentence).map
          (fun s => (pyInt ((s.end_time - s.start_time) * 1000)).toNat)).sum)
      := by
  refine C2_originalMode_output spNone [800] [⟨"Hi", 0, 1⟩] rfl (by decide)
    ?_ (by simp) (by with_unfolding_all decide)
  intro s hs
  rw [List.mem_singleton] at hs
  subst hs
  norm_num

/-! ## C7 — speech time and speech ratio -/

lemma insertByStart_perm (a : Sentence) (l : List Sentence) :
    (insertByStart a l).Perm (a :: l) := by
  induction l with
  | nil => simp [insertByStart]
  | cons b l ih =>
    rw [insertByStart]
    split
    · exact List.Perm.refl _
    · exact (ih.cons b).trans (List.Perm.swap a b l)

lemma sortByStart_perm (l : List Sentence) : (sortByStart l).Perm l := by
  suffices h : ∀ (m acc : List Sentence),
      (m.foldl (fun acc a => insertByStart a acc) acc).Perm (acc ++ m) by
    simpa using h l []
  intro m
  induction m with
  | nil => simp
  | cons a m ih =>
    intro acc
    simp only [List.foldl_cons]
    refine (ih (insertByStart a acc)).trans ?_
    refine ((insertByStart_perm a acc).append_right m).trans ?_
    exact List.perm_middle.symm

/-- C7 (confirmed): the gap analysis sums `end_time - start_time` over every
input sentence (invalid ones included — the sorted list is a permutation of
the input), the speech ratio is that sum divided by the last sorted
sentence's end time, and an empty sentence list yields ratio 0 with no
division error. -/
theorem C7_speech_time_and_ratio (sentences : List Sentence) :
    (analyzeSentenceGaps sentences).total_speech_time
      = (sentences.map (fun s => s.end_time - s.start_time)).sum
    ∧ (∀ s : Sentence, (sortByStart sentences).getLast? = some s →
        0 ≤ s.end_time →
        (analyzeSentenceGaps sentences).speech_ratio
          = (analyzeSentenceGaps sentences).total_speech_time / s.end_time)
    ∧ (sentences = [] → (analyzeSentenceGaps sentences).speech_ratio = 0) := by
  refine ⟨?_, ?_, ?_⟩
  · show ((sortByStart sentences).map
        (fun s => s.end_time - s.start_time)).sum = _
    exact ((sortByStart_perm sentences).map _).sum_eq
  · intro s hs hnn
    have htd : (analyzeSentenceGaps sentences).total_duration = s.end_time := by
      show (match (sortByStart sentences).getLast? with
        | some t => t.end_time
        | none => 0) = s.end_time
      rw [hs]
    have hr : (analyzeSentenceGaps sentences).speech_ratio
        = (if (analyzeSentenceGaps sentences).total_duration > 0
           then (analyzeSentenceGaps sentences).total_speech_time
                  / (analyzeSentenceGaps sentences).total_duration
           else 0) := rfl
    rw [hr, htd]
    rcases lt_or_eq_of_le hnn with hpos | hzero
    · rw [if_pos hpos]
    · rw [if_neg (by rw [← hzero]; exact lt_irrefl 0), ← hzero, div_zero]
  · intro he
    subst he
    rfl

/-- Witness for C7: on one sentence spanning [0, 1] the sum and the ratio
formula hold. -/
theorem C7_speech_time_and_ratio_witness :
    (analyzeSentenceGaps [⟨"hi there", 0, 1⟩]).total_speech_time
      = (([⟨"hi there", 0, 1⟩] : List Sentence).map
          (fun s => s.end_time - s.start_time)).sum
    ∧ (analyzeSentenceGaps [⟨"hi there", 0, 1⟩]).speech_ratio
      = (analyzeSentenceGaps [⟨"hi there", 0, 1⟩]).total_speech_time
          / ((⟨"hi there", 0, 1⟩ : Sentence)).end_time := by
  have h := C7_speech_time_and_ratio [⟨"hi there", 0, 1⟩]
  exact ⟨h.1, h.2.1 ⟨"hi there", 0, 1⟩ rfl (by norm_num)⟩

/-! ## C8 — progress reporting -/

lemma isMonotone_iff (l : List ℤ) :
    isMonotone l = true ↔ List.Chain' (fun a b : ℤ => a ≤ b) l := by
  induction l with
  | nil => simp [isMonotone]
  | cons a l ih =>
    cases l with
    | nil => simp [isMonotone]
    | cons b m =>
      rw [isMonotone, List.chain'_cons, Bool.and_eq_true, decide_eq_true_eq]
      exact and_congr_right fun _ => ih

lemma pyInt_mono {a b : ℚ} (ha : 0 ≤ a) (hab : a ≤ b) : pyInt a ≤ pyInt b := by
  rw [pyInt_of_nonneg ha, pyInt_of_nonneg (ha.trans hab)]
  exact Int.floor_le_floor hab

lemma loopProgress_chain (base : ℚ) (hb : 0 ≤ base) (n : ℕ) :
    List.Chain' (fun a b : ℤ => a ≤ b) (loopProgress base n) := by
  unfold loopProgress
  rw [List.chain'_map]
  cases n with
  | zero => simp
  | succ m =>
    rw [List.chain'_range_succ]
    intro k hk
    apply pyInt_mono
    · positivity
    · push_cast
      have h2 : ((k : ℚ)) / ((m : ℚ) + 1) ≤ (((k : ℚ)) + 1) / ((m : ℚ) + 1) :=
        (div_le_div_iff_of_pos_right (by positivity)).mpr (by linarith)
      linarith

lemma loopProgress_head (base : ℚ) (n : ℕ) (hn : 0 < n) :
    (loopProgress base n).head? = some (pyInt base) := by
  unfold loopProgress
  cases n with
  | zero => exact absurd hn (lt_irrefl 0)
  | succ m =>
    rw [List.range_succ_eq_map]
    simp only [List.map_cons, List.head?_cons, Option.some.injEq]
    congr 1
    norm_num

lemma loopProgress_mem_lt (base : ℚ) (hb : 0 ≤ base) (c : ℤ)
    (hc : base + 50 ≤ (c : ℚ)) (n : ℕ) :
    ∀ x ∈ loopProgress base n, x < c := by
  intro x hx
  unfold loopProgress at hx
  rcases List.mem_map.mp hx with ⟨i, hi, rfl⟩
  rw [List.mem_range] at hi
  have hn : 0 < n := lt_of_le_of_lt (Nat.zero_le i) hi
  have hnq : (0 : ℚ) < (n : ℚ) := by exact_mod_cast hn
  have hfrac : ((i : ℚ)) / ((n : ℚ)) < 1 := by
    rw [div_lt_one hnq]
    exact_mod_cast hi
  have h0 : (0 : ℚ) ≤ base + ((i : ℚ)) / ((n : ℚ)) * 50 := by positivity
  have hlt : base + ((i : ℚ)) / ((n : ℚ)) * 50 < (c : ℚ) := by nlinarith
  have hfloor : ((pyInt (base + ((i : ℚ)) / ((n : ℚ)) * 50) : ℤ) : ℚ)
      ≤ base + ((i : ℚ)) / ((n : ℚ)) * 50 := by
    rw [pyInt_of_nonneg h0]
    exact Int.floor_le _
  have hxc : ((pyInt (base + ((i : ℚ)) / ((n : ℚ)) * 50) : ℤ) : ℚ) < (c : ℚ) :=
    lt_of_le_of_lt hfloor hlt
  exact_mod_cast hxc

lemma trace_chain_30 (n : ℕ) (hn : 0 < n) :
    List.Chain' (fun a b : ℤ => a ≤ b)
      ([0, 10, 30] ++ loopProgress 30 n ++ [80, 90, 100]) := by
  rw [List.append_assoc, List.chain'_append]
  refine ⟨by norm_num [List.chain'_cons], ?_, ?_⟩
  · rw [List.chain'_append]
    refine ⟨loopProgress_chain 30 (by norm_num) n,
      by norm_num [List.chain'_cons], ?_⟩
    intro x hx y hy
    have hxm : x ∈ loopProgress 30 n := List.mem_of_mem_getLast? hx
    have hxlt : x < 80 :=
      loopProgress_mem_lt 30 (by norm_num) 80 (by norm_num) n x hxm
    have hy80 : (80 : ℤ) = y := by simpa using hy
    omega
  · intro x hx y hy
    have hx30 : (30 : ℤ) = x := by simpa using hx
    rw [List.head?_append, loopProgress_head 30 n hn] at hy
    have hp : pyInt (30 : ℚ) = 30 := by with_unfolding_all decide
    rw [hp] at hy
    have hy30 : (30 : ℤ) = y := by simpa using hy
    omega

/-- C8 (counterexample): in the continuous_with_spaces mode the progress
sequence is 0, 10, 15, 20, 75, 95, 90, 100 — it decreases from 95 to 90
(the converter reports 95 before `process_audio_file` resets to 90), so the
reported progress is not monotonically non-decreasing in every mode. -/
theorem C8_nonmonotone_counterexample :
    isMonotone (progressTrace Mode.continuous_with_spaces 1) = false := by
  with_unfolding_all decide

/-- C8 (amended): for every sentence count `n > 0` the progress sequence is
monotonically non-decreasing in the original, continuous, same_length and
timestamp_based modes (but not in continuous_with_spaces, see the
counterexample); in every one of the five modes the trace starts at 0, its
final value is 100, and every value before the final one is below 100, so
100 is reported only at successful completion. -/
theorem C8_progress_trace (n : ℕ) (hn : 0 < n) :
    isMonotone (progressTrace Mode.original n) = true
    ∧ isMonotone (progressTrace Mode.continuous n) = true
    ∧ isMonotone (progressTrace Mode.same_length n) = true
    ∧ isMonotone (progressTrace Mode.timestamp_based n) = true
    ∧ (∀ m : Mode, (progressTrace m n).head? = some 0
        ∧ (progressTrace m n).getLast? = some 100
        ∧ ∀ x ∈ (progressTrace m n).dropLast, x < 100) := by
  have h30 := trace_chain_30 n hn
  refine ⟨?_, ?_, ?_, ?_, ?_⟩
  · rw [show progressTrace Mode.original n
        = [0, 10, 30] ++ loopProgress 30 n ++ [80, 90, 100] from rfl,
      isMonotone_iff]
    exact h30
  · rw [show progressTrace Mode.continuous n
        = [0, 10, 30] ++ loopProgress 30 n ++ [80, 90, 100] from rfl,
      isMonotone_iff]
    exact h30
  · rfl
  · rfl
  · intro m
    cases m with
    | original =>
      have e1 : progressTrace Mode.original n
          = (([0, 10, 30] ++ loopProgress 30 n) ++ [80, 90]) ++ [100] := by
        show ([0, 10, 30] ++ loopProgress 30 n ++ [80, 90, 100] : List ℤ) = _
        simp
      refine ⟨rfl, ?_, ?_⟩
      · rw [e1, List.getLast?_concat]
      · rw [e1, List.dropLast_concat]
        intro x hx
        rcases List.mem_append.mp hx with h | h
        · rcases List.mem_append.mp h with h2 | h2
          · simp only [List.mem_cons, List.not_mem_nil, or_false] at h2
            rcases h2 with rfl | rfl | rfl <;> omega
          · exact loopProgress_mem_lt 30 (by norm_num) 100 (by norm_num)
              n x h2
        · simp only [List.mem_cons, List.not_mem_nil, or_false] at h
          rcases h with rfl | rfl <;> omega
    | continuous =>
      have e1 : progressTrace Mode.continuous n
          = (([0, 10, 30] ++ loopProgress 30 n) ++ [80, 90]) ++ [100] := by
        show ([0, 10, 30] ++ loopProgress 30 n ++ [80, 90, 100] : List ℤ) = _
        simp
      refine ⟨rfl, ?_, ?_⟩
      · rw [e1, List.getLast?_concat]
      · rw [e1, List.dropLast_concat]
        intro x hx
        rcases List.mem_append.mp hx with h | h
        · rcases List.mem_append.mp h with h2 | h2
          · simp only [List.mem_cons, List.not_mem_nil, or_false] at h2
            rcases h2 with rfl | rfl | rfl <;> omega
          · exact loopProgress_mem_lt 30 (by norm_num) 100 (by norm_num)
              n x h2
        · simp only [List.mem_cons, List.not_mem_nil, or_false] at h
          rcases h with rfl | rfl <;> omega
    | same_length =>
      refine ⟨rfl, rfl, ?_⟩
      intro x hx
      simp only [progressTrace, List.dropLast, List.mem_cons,
        List.not_mem_nil, or_false] at hx
      rcases hx with rfl | rfl | rfl | rfl <;> omega
    | timestamp_based =>
      refine ⟨rfl, rfl, ?_⟩
      intro x hx
      simp only [progressTrace, List.dropLast, List.mem_cons,
        List.not_mem_nil, or_false] at hx
      rcases hx with rfl | rfl | rfl | rfl | rfl | rfl <;> omega
    | continuous_with_spaces =>
      have e1 : progressTrace Mode.continuous_with_spaces n
          = (([0, 10, 15] ++ loopProgress 20 n) ++ [75, 95, 90]) ++ [100] := by
        show ([0, 10, 15] ++ loopProgress 20 n ++ [75, 95, 90, 100] : List ℤ)
          = _
        simp
      refine ⟨rfl, ?_, ?_⟩
      · rw [e1, List.getLast?_concat]
      · rw [e1, List.dropLast_concat]
        intro x hx
        rcases List.mem_append.mp hx with h | h
        · rcases List.mem_append.mp h with h2 | h2
          · simp only [List.mem_cons, List.not_mem_nil, or_false] at h2
            rcases h2 with rfl | rfl | rfl <;> omega
          · exact loopProgress_mem_lt 20 (by norm_num) 100 (by norm_num)
              n x h2
        · simp only [List.mem_cons, List.not_mem_nil, or_false] at h
          rcases h with rfl | rfl | rfl <;> omega

/-- Witness for C8: the trace facts at one sentence. -/
theorem C8_progress_trace_witness :
    isMonotone (progressTrace Mode.original 1) = true
    ∧ isMonotone (progressTrace Mode.same_length 1) = true
    ∧ (progressTrace Mode.continuous_with_spaces 1).getLast? = some 100 := by
  have h := C8_progress_trace 1 (by norm_num)
  exact ⟨h.1, h.2.2.1, (h.2.2.2.2 Mode.continuous_with_spaces).2.1⟩

end VoiceConverter
